import Mathlib

/-!
# LocalRAG2 — verification of the folder synchronization and retrieval engine

A shallow embedding of the LocalRAG2 repository's data model and operations:
the folder snapshot store and its `diff`, the sync engine's full-rescan cycle
(delete removed files' chunks, re-chunk/re-embed changed files, commit the
snapshot after the index mutations), the retrieval engine, the Prisma data
model (`WatchedFolder`, `File` with its composite unique constraint), and the
frontend form/chat handlers (`WatchedFolderFormDialog.handleSubmit`,
`ChatInterface.handleSendMessage`).

The backend sync/retrieval core (folderwatch.py, vector_db.py, rag_manager.py)
is not present in the repository snapshot; those operations are modelled from
the specification, as marked in each doc comment.  The Prisma schema and the
frontend TypeScript sources are embedded directly.
-/

namespace LocalRAG

/-- Relative path of a file inside a watched folder. -/
abbrev Path := String

/-- Content fingerprint (modelled as a natural number digest). -/
abbrev Fingerprint := Nat

/-- Embedding vector (integer components suffice for the properties proved). -/
abbrev Vector := List Int

/-- Association-list lookup on `Path`-keyed lists (first match wins, as the
snapshot store keeps one record per path). -/
def alist.lookup {α : Type} (m : List (Path × α)) (p : Path) : Option α :=
  match m with
  | [] => none
  | (q, v) :: rest => if q = p then some v else alist.lookup rest p

theorem alist.lookup_nil {α : Type} (p : Path) :
    alist.lookup ([] : List (Path × α)) p = none := rfl

theorem alist.lookup_cons {α : Type} (q : Path) (v : α) (rest : List (Path × α)) (p : Path) :
    alist.lookup ((q, v) :: rest) p = if q = p then some v else alist.lookup rest p := rfl

/-- With duplicate-free keys, membership coincides with lookup. -/
theorem alist.lookup_eq_some_iff_mem {α : Type} {m : List (Path × α)}
    (hnd : (m.map Prod.fst).Nodup) (p : Path) (v : α) :
    alist.lookup m p = some v ↔ (p, v) ∈ m := by
  induction m with
  | nil => simp [alist.lookup]
  | cons hd tl ih =>
    obtain ⟨q, w⟩ := hd
    simp only [List.map_cons, List.nodup_cons] at hnd
    rw [alist.lookup_cons]
    by_cases hq : q = p
    · subst hq
      simp only [if_pos rfl]
      constructor
      · rintro h
        injection h with h
        subst h
        exact List.mem_cons_self _ _
      · intro h
        rcases List.mem_cons.mp h with h | h
        · injection h with _ h2
          simp [h2]
        · exfalso
          exact hnd.1 (List.mem_map.mpr ⟨(q, v), h, rfl⟩)
    · simp only [if_neg hq]
      rw [ih hnd.2]
      constructor
      · exact fun h => List.mem_cons_of_mem _ h
      · intro h
        rcases List.mem_cons.mp h with h | h
        · exfalso; exact hq (congrArg Prod.fst h).symm
        · exact h

theorem alist.lookup_eq_none_iff {α : Type} (m : List (Path × α)) (p : Path) :
    alist.lookup m p = none ↔ ∀ v, (p, v) ∉ m := by
  induction m with
  | nil => simp [alist.lookup]
  | cons hd tl ih =>
    obtain ⟨q, w⟩ := hd
    rw [alist.lookup_cons]
    by_cases hq : q = p
    · subst hq
      simp only [if_pos rfl]
      constructor
      · intro h; cases h
      · intro h
        exact absurd (List.mem_cons_self _ _) (h w)
    · simp only [if_neg hq, ih]
      constructor
      · intro h v hv
        rcases List.mem_cons.mp hv with hv | hv
        · exact hq (congrArg Prod.fst hv).symm
        · exact h v hv
      · intro h v hv
        exact h v (List.mem_cons_of_mem _ hv)

/-- Result of the snapshot diff: paths added, modified and removed. -/
structure DiffResult where
  added : List Path
  modified : List Path
  removed : List Path
deriving DecidableEq, Repr

/-- Modelled from the spec: the Folder Snapshot Store's pure
`diff(old, new) -> {added, modified, removed}` (§4.2) — a path present only in
`new` is added; present in both with differing fingerprint is modified;
present only in `old` is removed.  The backend implementation (folderwatch.py)
is not in the repository snapshot. -/
def diff (old new : List (Path × Fingerprint)) : DiffResult where
  added := (new.filter (fun pr => (alist.lookup old pr.1).isNone)).map Prod.fst
  modified := (new.filter (fun pr =>
    match alist.lookup old pr.1 with
    | some f => f ≠ pr.2
    | none => false)).map Prod.fst
  removed := (old.filter (fun pr => (alist.lookup new pr.1).isNone)).map Prod.fst

/-- Modelled from the spec: the Content Hasher's `fingerprint(bytes)` (§4.1),
a deterministic digest of file content; the hashing backend is not in the
repository snapshot.  Determinism is definitional. -/
def fingerprint (content : String) : Fingerprint :=
  content.data.foldl (fun a c => a * 131 + c.toNat) 7

/-- Modelled from the spec: the Embedding Provider Adapter's deterministic
`embed` capability for one text (§4.5); provider backends are external. -/
def embed (text : String) : Vector :=
  [Int.ofNat text.length, Int.ofNat (text.data.foldl (fun a c => a + c.toNat) 0)]

/-- Chunker target size (design default region, §4.4). -/
def chunkTargetSize : Nat := 200

/-- Chunker stride: target size minus the overlap shared by adjacent chunks. -/
def chunkStep : Nat := 170

/-- Modelled from the spec: the Document Chunker `chunk(text, targetSize,
overlap)` (§4.4) — fixed-width slicing with overlap, deterministic for
identical input; the loader/chunker backend is not in the repository
snapshot.  Always yields at least one chunk. -/
def chunkText (text : String) : List String :=
  let cs := text.data
  let n := max 1 ((cs.length + chunkStep - 1) / chunkStep)
  (List.range n).map (fun i => String.mk ((cs.drop (i * chunkStep)).take chunkTargetSize))

/-- A chunk as persisted in the per-folder Vector Index (§3): source file,
ordinal position, text span, content hash, embedding vector. -/
structure Chunk where
  source : Path
  ordinal : Nat
  text : String
  hash : Nat
  vector : Vector
deriving DecidableEq, Repr

/-- Modelled from the spec: chunk and embed one file's content; chunk identity
is source file + ordinal (§4.4). -/
def chunksFor (p : Path) (content : String) : List Chunk :=
  (chunkText content).enum.map (fun it => ⟨p, it.1, it.2, fingerprint it.2, embed it.2⟩)

/-- Per-folder engine state: the committed snapshot (path → fingerprint), the
vector index contents, and whether an initial sync has completed. -/
structure FolderState where
  snapshot : List (Path × Fingerprint)
  index : List Chunk
  initialSyncDone : Bool
deriving DecidableEq, Repr

/-- State of a folder that has never been synced. -/
def freshState : FolderState := ⟨[], [], false⟩

/-- Fingerprint every file of a filesystem listing (path → content). -/
def snapshotOf (fs : List (Path × String)) : List (Path × Fingerprint) :=
  fs.map (fun pc => (pc.1, fingerprint pc.2))

/-- Modelled from the spec: the Vector Index's `deleteBySource` (§4.6) —
removes every chunk whose source is the given file. -/
def deleteBySource (idx : List Chunk) (p : Path) : List Chunk :=
  idx.filter (fun c => c.source ≠ p)

/-- Modelled from the spec: the Applying phase's per-file work (§4.7) —
replace the file's chunks in the index by the chunks of its current content. -/
def applyFile (idx : List Chunk) (p : Path) (content : String) : List Chunk :=
  deleteBySource idx p ++ chunksFor p content

/-- Modelled from the spec: apply the added/modified paths of a diff in order,
loading each file's content from the filesystem listing (§4.7). -/
def applyChanged (fs : List (Path × String)) (idx : List Chunk) (ps : List Path) : List Chunk :=
  ps.foldl (fun acc p =>
    match alist.lookup fs p with
    | some content => applyFile acc p content
    | none => acc) idx

/-- Number of embedding-provider calls issued while applying the given changed
paths: one call per chunk of each changed file (§4.5, §8). -/
def embedCallsFor (fs : List (Path × String)) (ps : List Path) : Nat :=
  ps.foldl (fun n p =>
    match alist.lookup fs p with
    | some content => n + (chunkText content).length
    | none => n) 0

/-- Modelled from the spec: one full sync cycle of the Sync Engine (§4.7):
Scanning (fingerprint the tree), Diffing (against the committed snapshot),
Applying (delete removed files' chunks, re-chunk/embed/upsert changed files),
then the `Applying → Idle` commit of the updated snapshot after the index
mutations.  Returns the new state and the number of embedding calls issued.
The sync backend (folderwatch.py / vector_db.py) is not in the repository
snapshot. -/
def sync (fs : List (Path × String)) (st : FolderState) : FolderState × Nat :=
  let newSnap := snapshotOf fs
  let d := diff st.snapshot newSnap
  let changed := d.added ++ d.modified
  let idx1 := d.removed.foldl deleteBySource st.index
  let idx2 := applyChanged fs idx1 changed
  ({ snapshot := newSnap, index := idx2, initialSyncDone := true },
   embedCallsFor fs changed)

/-- The no-orphans co-consistency invariant (§8): every snapshot entry has at
least one chunk in the index, and every chunk traces to a snapshot entry. -/
def noOrphans (st : FolderState) : Bool :=
  st.snapshot.all (fun pr => st.index.any (fun c => c.source = pr.1)) &&
  st.index.all (fun c => st.snapshot.any (fun pr => pr.1 = c.source))

/-- Folder states reachable after a completed sync: the result of one or more
full sync cycles (each over a filesystem listing with distinct paths) starting
from the never-synced state. -/
inductive ReachableSynced : FolderState → Prop
  | init (fs : List (Path × String)) (hnd : (fs.map Prod.fst).Nodup) :
      ReachableSynced (sync fs freshState).1
  | step (fs : List (Path × String)) (st : FolderState)
      (hnd : (fs.map Prod.fst).Nodup) (hst : ReachableSynced st) :
      ReachableSynced (sync fs st).1

/-- Retrieval failure modes (§4.8, §7). -/
inductive RetrieveError
  | notReady
  | providerError
deriving DecidableEq, Repr

/-- Inner-product similarity between two vectors (§4.6). -/
def innerProduct (v w : Vector) : Int :=
  (v.zip w).foldl (fun a p => a + p.1 * p.2) 0

/-- Insert a scored chunk into a list kept in descending score order. -/
def insertByScore (x : Chunk × Int) : List (Chunk × Int) → List (Chunk × Int)
  | [] => [x]
  | y :: ys => if y.2 ≤ x.2 then x :: y :: ys else y :: insertByScore x ys

/-- Sort scored chunks by descending score (insertion sort, deterministic). -/
def sortByScore (l : List (Chunk × Int)) : List (Chunk × Int) :=
  l.foldr insertByScore []

/-- Modelled from the spec: the Retrieval Engine's
`retrieve(folderId, query, k)` (§4.8) for one folder's state — fails with
`NotReady` before the first completed sync, with `ProviderError` when the
embedding capability fails on the query, and otherwise returns the top-k
scored chunks.  The retrieval backend (rag_manager.py) is not in the
repository snapshot; the query-embedding capability is the external
collaborator, passed as a function. -/
def retrieve (st : FolderState) (embedQuery : String → Option Vector)
    (q : String) (k : Nat) : Except RetrieveError (List (Chunk × Int)) :=
  if st.initialSyncDone = false then .error .notReady
  else
    match embedQuery q with
    | none => .error .providerError
    | some v => .ok ((sortByScore (st.index.map (fun c => (c, innerProduct c.vector v)))).take k)

theorem alist.lookup_mem {α : Type} {m : List (Path × α)} {p : Path} {v : α}
    (h : alist.lookup m p = some v) : (p, v) ∈ m := by
  induction m with
  | nil => simp [alist.lookup] at h
  | cons hd tl ih =>
    obtain ⟨q, w⟩ := hd
    rw [alist.lookup_cons] at h
    by_cases hq : q = p
    · subst hq
      rw [if_pos rfl] at h
      injection h with h
      subst h
      exact List.mem_cons_self _ _
    · rw [if_neg hq] at h
      exact List.mem_cons_of_mem _ (ih h)

theorem alist.lookup_isSome_iff {α : Type} (m : List (Path × α)) (p : Path) :
    (alist.lookup m p).isSome = true ↔ p ∈ m.map Prod.fst := by
  constructor
  · intro h
    obtain ⟨v, hv⟩ := Option.isSome_iff_exists.mp h
    exact List.mem_map.mpr ⟨(p, v), alist.lookup_mem hv, rfl⟩
  · intro h
    rcases List.mem_map.mp h with ⟨⟨q, v⟩, hm, hq⟩
    cases hq
    cases hlk : alist.lookup m q with
    | some w => rfl
    | none => exact absurd hm ((alist.lookup_eq_none_iff m q).mp hlk v)

theorem mem_filter_map_fst {α : Type} (l : List (Path × α)) (φ : Path × α → Bool) (p : Path) :
    p ∈ (l.filter φ).map Prod.fst ↔ ∃ v, (p, v) ∈ l ∧ φ (p, v) = true := by
  constructor
  · intro h
    rcases List.mem_map.mp h with ⟨pr, hpr, hfst⟩
    rcases List.mem_filter.mp hpr with ⟨hmem, hφ⟩
    obtain ⟨q, v⟩ := pr
    cases hfst
    exact ⟨v, hmem, hφ⟩
  · rintro ⟨v, hmem, hφ⟩
    exact List.mem_map.mpr ⟨(p, v), List.mem_filter.mpr ⟨hmem, hφ⟩, rfl⟩

/-- C3: `diff` is a pure function of its two input mappings (it is a Lean
function of `old` and `new` alone), and for mappings with duplicate-free
paths it classifies exactly as specified: a path only in `new` is added, a
path in both with differing fingerprints is modified, a path only in `old`
is removed — and, the three equivalences being exhaustive, it classifies no
other paths. -/
theorem diff_classifies (old new : List (Path × Fingerprint))
    (hold : (old.map Prod.fst).Nodup) (hnew : (new.map Prod.fst).Nodup) (p : Path) :
    (p ∈ (diff old new).added ↔
      alist.lookup old p = none ∧ (alist.lookup new p).isSome = true) ∧
    (p ∈ (diff old new).modified ↔
      ∃ f g, alist.lookup old p = some f ∧ alist.lookup new p = some g ∧ f ≠ g) ∧
    (p ∈ (diff old new).removed ↔
      (alist.lookup old p).isSome = true ∧ alist.lookup new p = none) := by
  refine ⟨?_, ?_, ?_⟩
  · simp only [diff]
    rw [mem_filter_map_fst]
    constructor
    · rintro ⟨v, hmem, hcond⟩
      refine ⟨Option.isNone_iff_eq_none.mp hcond, ?_⟩
      rw [(alist.lookup_eq_some_iff_mem hnew p v).mpr hmem]
      rfl
    · rintro ⟨hnone, hsome⟩
      obtain ⟨v, hv⟩ := Option.isSome_iff_exists.mp hsome
      refine ⟨v, (alist.lookup_eq_some_iff_mem hnew p v).mp hv, ?_⟩
      simp [hnone]
  · simp only [diff]
    rw [mem_filter_map_fst]
    constructor
    · rintro ⟨v, hmem, hcond⟩
      have hv := (alist.lookup_eq_some_iff_mem hnew p v).mpr hmem
      cases holdp : alist.lookup old p with
      | none => simp only [holdp] at hcond; cases hcond
      | some f =>
        simp only [holdp] at hcond
        exact ⟨f, v, rfl, hv, by simpa using hcond⟩
    · rintro ⟨f, g, hf, hg, hne⟩
      refine ⟨g, (alist.lookup_eq_some_iff_mem hnew p g).mp hg, ?_⟩
      simp only [hf]
      simpa using hne
  · simp only [diff]
    rw [mem_filter_map_fst]
    constructor
    · rintro ⟨v, hmem, hcond⟩
      refine ⟨?_, Option.isNone_iff_eq_none.mp hcond⟩
      rw [(alist.lookup_eq_some_iff_mem hold p v).mpr hmem]
      rfl
    · rintro ⟨hsome, hnone⟩
      obtain ⟨v, hv⟩ := Option.isSome_iff_exists.mp hsome
      refine ⟨v, (alist.lookup_eq_some_iff_mem hold p v).mp hv, ?_⟩
      simp [hnone]

/-- Witness for C3 at concrete mappings: with `old = [a↦1, b↦2]` and
`new = [b↦5, c↦3]`, path `c` is added, `b` is modified, `a` is removed. -/
theorem diff_classifies_witness :
    ("c" : Path) ∈ (diff [("a", 1), ("b", 2)] [("b", 5), ("c", 3)]).added ∧
    ("b" : Path) ∈ (diff [("a", 1), ("b", 2)] [("b", 5), ("c", 3)]).modified ∧
    ("a" : Path) ∈ (diff [("a", 1), ("b", 2)] [("b", 5), ("c", 3)]).removed :=
  ⟨((diff_classifies _ _ (by decide) (by decide) "c").1).mpr ⟨by decide, by decide⟩,
   ((diff_classifies _ _ (by decide) (by decide) "b").2.1).mpr
     ⟨2, 5, by decide, by decide, by decide⟩,
   ((diff_classifies _ _ (by decide) (by decide) "a").2.2).mpr ⟨by decide, by decide⟩⟩

/-- C4: `retrieve` fails with `NotReady` whenever the folder has never
completed an initial sync, fails with `ProviderError` whenever embedding the
query fails, is deterministic for a fixed index state and `k` (two states
agreeing on index contents and sync status yield identical results), and a
`NotReady` failure is distinguishable from a successful result with zero
chunks. -/
theorem retrieve_spec (st : FolderState) (e : String → Option Vector)
    (q : String) (k : Nat) :
    (st.initialSyncDone = false → retrieve st e q k = .error .notReady) ∧
    (st.initialSyncDone = true → e q = none →
      retrieve st e q k = .error .providerError) ∧
    (∀ st2, st2.index = st.index → st2.initialSyncDone = st.initialSyncDone →
      retrieve st2 e q k = retrieve st e q k) ∧
    (∀ r : List (Chunk × Int),
      (Except.error RetrieveError.notReady :
        Except RetrieveError (List (Chunk × Int))) ≠ Except.ok r) := by
  refine ⟨?_, ?_, ?_, ?_⟩
  · intro h
    simp [retrieve, h]
  · intro h he
    simp [retrieve, h, he]
  · intro st2 hidx hdone
    simp [retrieve, hidx, hdone]
  · intro r h
    cases h

/-- Witness for C4 at concrete inputs: a never-synced folder yields
`NotReady`; a synced folder with a failing embedding capability yields
`ProviderError`. -/
theorem retrieve_spec_witness :
    retrieve freshState (fun _ => none) "hello" 3 = .error .notReady ∧
    retrieve ⟨[], [], true⟩ (fun _ => none) "hello" 3 = .error .providerError :=
  ⟨(retrieve_spec freshState (fun _ => none) "hello" 3).1 rfl,
   (retrieve_spec ⟨[], [], true⟩ (fun _ => none) "hello" 3).2.1 rfl rfl⟩

theorem chunkText_length_pos (content : String) : 0 < (chunkText content).length := by
  simp only [chunkText, List.length_map, List.length_range]
  exact Nat.lt_of_lt_of_le Nat.zero_lt_one (Nat.le_max_left _ _)

theorem chunksFor_source {p : Path} {content : String} {c : Chunk}
    (h : c ∈ chunksFor p content) : c.source = p := by
  simp only [chunksFor, List.mem_map] at h
  obtain ⟨it, _, rfl⟩ := h
  rfl

theorem chunksFor_exists (p : Path) (content : String) :
    ∃ c, c ∈ chunksFor p content ∧ c.source = p := by
  cases h : chunksFor p content with
  | nil =>
    exfalso
    have hlen : 0 < (chunksFor p content).length := by
      simpa [chunksFor, List.enum_length] using chunkText_length_pos content
    rw [h] at hlen
    exact Nat.lt_irrefl 0 hlen
  | cons c cs =>
    have hc : c ∈ chunksFor p content := by rw [h]; exact List.mem_cons_self _ _
    exact ⟨c, List.mem_cons_self _ _, chunksFor_source hc⟩

theorem mem_deleteBySource {idx : List Chunk} {p : Path} {c : Chunk} :
    c ∈ deleteBySource idx p ↔ c ∈ idx ∧ c.source ≠ p := by
  simp [deleteBySource, List.mem_filter]

theorem mem_foldl_deleteBySource (ps : List Path) (idx : List Chunk) (c : Chunk) :
    c ∈ ps.foldl deleteBySource idx ↔ c ∈ idx ∧ c.source ∉ ps := by
  induction ps generalizing idx with
  | nil => simp
  | cons p ps ih =>
    rw [List.foldl_cons, ih, mem_deleteBySource]
    simp only [List.mem_cons]
    constructor
    · rintro ⟨⟨hm, hne⟩, hnin⟩
      exact ⟨hm, fun h => h.elim hne hnin⟩
    · rintro ⟨hm, hnin⟩
      exact ⟨⟨hm, fun h => hnin (Or.inl h)⟩, fun h => hnin (Or.inr h)⟩

theorem applyChanged_cons (fs : List (Path × String)) (idx : List Chunk)
    (p : Path) (ps : List Path) :
    applyChanged fs idx (p :: ps) =
      applyChanged fs
        (match alist.lookup fs p with
         | some content => applyFile idx p content
         | none => idx) ps := rfl

theorem mem_applyChanged (fs : List (Path × String)) (c : Chunk) :
    ∀ (ps : List Path), ps.Nodup → ∀ (idx : List Chunk),
    (c ∈ applyChanged fs idx ps ↔
      (c ∈ idx ∧ ∀ p ∈ ps, (alist.lookup fs p).isSome = true → c.source ≠ p) ∨
      (∃ p content, p ∈ ps ∧ alist.lookup fs p = some content ∧
        c ∈ chunksFor p content)) := by
  intro ps
  induction ps with
  | nil =>
    intro _ idx
    simp [applyChanged]
  | cons p ps ih =>
    intro hps idx
    obtain ⟨hp, hnd⟩ := List.nodup_cons.mp hps
    rw [applyChanged_cons]
    cases hlk : alist.lookup fs p with
    | none =>
      rw [ih hnd idx]
      constructor
      · rintro (⟨hm, hall⟩ | ⟨q, content, hq, hlq, hc⟩)
        · refine Or.inl ⟨hm, ?_⟩
          intro q hq hsq
          rcases List.mem_cons.mp hq with rfl | hq'
          · rw [hlk] at hsq; cases hsq
          · exact hall q hq' hsq
        · exact Or.inr ⟨q, content, List.mem_cons_of_mem _ hq, hlq, hc⟩
      · rintro (⟨hm, hall⟩ | ⟨q, content, hq, hlq, hc⟩)
        · exact Or.inl ⟨hm, fun q hq hsq => hall q (List.mem_cons_of_mem _ hq) hsq⟩
        · rcases List.mem_cons.mp hq with rfl | hq'
          · rw [hlk] at hlq; cases hlq
          · exact Or.inr ⟨q, content, hq', hlq, hc⟩
    | some content =>
      rw [ih hnd _]
      have hstep : ∀ d : Chunk, d ∈ applyFile idx p content ↔
          (d ∈ idx ∧ d.source ≠ p) ∨ d ∈ chunksFor p content := by
        intro d
        simp [applyFile, mem_deleteBySource, List.mem_append]
      constructor
      · rintro (⟨hm, hall⟩ | ⟨q, content', hq, hlq, hc⟩)
        · rcases (hstep c).mp hm with ⟨hmi, hne⟩ | hchunk
          · refine Or.inl ⟨hmi, ?_⟩
            intro q hq hsq
            rcases List.mem_cons.mp hq with rfl | hq'
            · exact hne
            · exact hall q hq' hsq
          · exact Or.inr ⟨p, content, List.mem_cons_self _ _, hlk, hchunk⟩
        · exact Or.inr ⟨q, content', List.mem_cons_of_mem _ hq, hlq, hc⟩
      · rintro (⟨hm, hall⟩ | ⟨q, content', hq, hlq, hc⟩)
        · refine Or.inl ⟨(hstep c).mpr (Or.inl ⟨hm, ?_⟩), ?_⟩
          · exact hall p (List.mem_cons_self _ _) (by rw [hlk]; rfl)
          · exact fun q hq hsq => hall q (List.mem_cons_of_mem _ hq) hsq
        · rcases List.mem_cons.mp hq with rfl | hq'
          · rw [hlk] at hlq
            injection hlq with hlq
            subst hlq
            refine Or.inl ⟨(hstep c).mpr (Or.inr hc), ?_⟩
            intro r hr hsr
            rw [chunksFor_source hc]
            intro hpr
            exact hp (hpr ▸ hr)
          · exact Or.inr ⟨q, content', hq', hlq, hc⟩

theorem mem_added_elim {old new : List (Path × Fingerprint)} {p : Path}
    (h : p ∈ (diff old new).added) :
    alist.lookup old p = none ∧ p ∈ new.map Prod.fst := by
  simp only [diff] at h
  rw [mem_filter_map_fst] at h
  obtain ⟨v, hmem, hcond⟩ := h
  exact ⟨Option.isNone_iff_eq_none.mp hcond, List.mem_map.mpr ⟨(p, v), hmem, rfl⟩⟩

theorem mem_modified_elim {old new : List (Path × Fingerprint)} {p : Path}
    (h : p ∈ (diff old new).modified) :
    (alist.lookup old p).isSome = true ∧ p ∈ new.map Prod.fst := by
  simp only [diff] at h
  rw [mem_filter_map_fst] at h
  obtain ⟨v, hmem, hcond⟩ := h
  refine ⟨?_, List.mem_map.mpr ⟨(p, v), hmem, rfl⟩⟩
  cases hl : alist.lookup old p with
  | none => rw [hl] at hcond; cases hcond
  | some f => rfl

theorem mem_removed_elim {old new : List (Path × Fingerprint)} {p : Path}
    (h : p ∈ (diff old new).removed) :
    alist.lookup new p = none ∧ p ∈ old.map Prod.fst := by
  simp only [diff] at h
  rw [mem_filter_map_fst] at h
  obtain ⟨v, hmem, hcond⟩ := h
  exact ⟨Option.isNone_iff_eq_none.mp hcond, List.mem_map.mpr ⟨(p, v), hmem, rfl⟩⟩

theorem mem_removed_intro {old new : List (Path × Fingerprint)} {p : Path} {v : Fingerprint}
    (hmem : (p, v) ∈ old) (hnone : alist.lookup new p = none) :
    p ∈ (diff old new).removed := by
  simp only [diff]
  rw [mem_filter_map_fst]
  exact ⟨v, hmem, by simp [hnone]⟩

theorem changed_nodup {old new : List (Path × Fingerprint)}
    (hnew : (new.map Prod.fst).Nodup) :
    ((diff old new).added ++ (diff old new).modified).Nodup := by
  have h1 : (diff old new).added.Nodup := by
    simp only [diff]
    exact ((List.filter_sublist _).map _).nodup hnew
  have h2 : (diff old new).modified.Nodup := by
    simp only [diff]
    exact ((List.filter_sublist _).map _).nodup hnew
  refine h1.append h2 ?_
  intro p hp1 hp2
  have ha := (mem_added_elim hp1).1
  have hm := (mem_modified_elim hp2).1
  rw [ha] at hm
  cases hm

theorem noOrphans_iff (st : FolderState) :
    noOrphans st = true ↔
      ((∀ pr ∈ st.snapshot, ∃ c ∈ st.index, c.source = pr.1) ∧
       (∀ c ∈ st.index, ∃ pr ∈ st.snapshot, pr.1 = c.source)) := by
  simp [noOrphans, List.all_eq_true, List.any_eq_true]

theorem snapshotOf_keys (fs : List (Path × String)) :
    (snapshotOf fs).map Prod.fst = fs.map Prod.fst := by
  unfold snapshotOf
  rw [List.map_map]
  rfl

theorem noOrphans_sync {fs : List (Path × String)} {st : FolderState}
    (hnd : (fs.map Prod.fst).Nodup) (hst : noOrphans st = true) :
    noOrphans (sync fs st).1 = true := by
  rw [noOrphans_iff] at hst ⊢
  obtain ⟨hA, hB⟩ := hst
  have hnd' : ((snapshotOf fs).map Prod.fst).Nodup := by
    rw [snapshotOf_keys]; exact hnd
  have hchanged : ((diff st.snapshot (snapshotOf fs)).added ++
      (diff st.snapshot (snapshotOf fs)).modified).Nodup := changed_nodup hnd'
  have hsnap : (sync fs st).1.snapshot = snapshotOf fs := rfl
  have hidx : (sync fs st).1.index =
      applyChanged fs
        ((diff st.snapshot (snapshotOf fs)).removed.foldl deleteBySource st.index)
        ((diff st.snapshot (snapshotOf fs)).added ++
          (diff st.snapshot (snapshotOf fs)).modified) := rfl
  constructor
  · intro pr hpr
    rw [hsnap] at hpr
    rw [hidx]
    by_cases hch : pr.1 ∈ (diff st.snapshot (snapshotOf fs)).added ++
        (diff st.snapshot (snapshotOf fs)).modified
    · have hmemkeys : pr.1 ∈ fs.map Prod.fst := by
        rw [← snapshotOf_keys]
        exact List.mem_map.mpr ⟨pr, hpr, rfl⟩
      have hsome : (alist.lookup fs pr.1).isSome = true :=
        (alist.lookup_isSome_iff fs pr.1).mpr hmemkeys
      obtain ⟨content, hcontent⟩ := Option.isSome_iff_exists.mp hsome
      obtain ⟨c, hc, hcs⟩ := chunksFor_exists pr.1 content
      refine ⟨c, ?_, hcs⟩
      rw [mem_applyChanged fs c _ hchanged _]
      exact Or.inr ⟨pr.1, content, hch, hcontent, hc⟩
    · rw [List.mem_append] at hch
      push_neg at hch
      obtain ⟨hnadd, hnmod⟩ := hch
      have hos : (alist.lookup st.snapshot pr.1).isSome = true := by
        cases hl : alist.lookup st.snapshot pr.1 with
        | some g => rfl
        | none =>
          exfalso
          apply hnadd
          simp only [diff]
          rw [mem_filter_map_fst]
          exact ⟨pr.2, hpr, by simp [hl]⟩
      obtain ⟨g, hg⟩ := Option.isSome_iff_exists.mp hos
      obtain ⟨c, hc, hcs⟩ := hA (pr.1, g) (alist.lookup_mem hg)
      refine ⟨c, ?_, hcs⟩
      rw [mem_applyChanged fs c _ hchanged _]
      left
      constructor
      · rw [mem_foldl_deleteBySource]
        refine ⟨hc, ?_⟩
        intro hrem
        rw [hcs] at hrem
        have hnone := (mem_removed_elim hrem).1
        have : (alist.lookup (snapshotOf fs) pr.1).isSome = true :=
          (alist.lookup_isSome_iff _ _).mpr (List.mem_map.mpr ⟨pr, hpr, rfl⟩)
        rw [hnone] at this
        cases this
      · intro q hq _
        rw [hcs]
        rintro rfl
        rcases List.mem_append.mp hq with h | h
        · exact hnadd h
        · exact hnmod h
  · intro c hc
    rw [hidx] at hc
    rw [hsnap]
    rw [mem_applyChanged fs c _ hchanged _] at hc
    rcases hc with ⟨hc1, _⟩ | ⟨q, content, hq, _, hcq⟩
    · rw [mem_foldl_deleteBySource] at hc1
      obtain ⟨hcold, hnrem⟩ := hc1
      obtain ⟨pr, hpr, hpr1⟩ := hB c hcold
      cases hl : alist.lookup (snapshotOf fs) c.source with
      | some f => exact ⟨(c.source, f), alist.lookup_mem hl, rfl⟩
      | none =>
        exfalso
        apply hnrem
        refine mem_removed_intro (v := pr.2) ?_ hl
        rw [← hpr1]
        exact hpr
    · have hqkeys : q ∈ (snapshotOf fs).map Prod.fst := by
        rcases List.mem_append.mp hq with h | h
        · exact (mem_added_elim h).2
        · exact (mem_modified_elim h).2
      rcases List.mem_map.mp hqkeys with ⟨pr, hpr, hpr1⟩
      exact ⟨pr, hpr, by rw [hpr1, chunksFor_source hcq]⟩

/-- C1: in every state reachable after a completed sync, every snapshot entry
has at least one corresponding chunk in the vector index and every chunk in
the index traces back to a snapshot entry (no orphans in either direction);
the `Applying → Idle` transition of the model commits the snapshot together
with the successful index mutations, so the invariant is established by the
first completed sync and preserved by every later one. -/
theorem reachable_sync_noOrphans (st : FolderState) (h : ReachableSynced st) :
    noOrphans st = true := by
  induction h with
  | init fs hnd => exact noOrphans_sync hnd rfl
  | step fs st hnd _ ih => exact noOrphans_sync hnd ih

/-- Witness for C1: the state after an initial sync of a one-file folder
satisfies the no-orphans invariant. -/
theorem reachable_sync_noOrphans_witness :
    noOrphans (sync [("a.txt", "hello world")] freshState).1 = true :=
  reachable_sync_noOrphans _
    (ReachableSynced.init [("a.txt", "hello world")] (by decide))

theorem diff_self (m : List (Path × Fingerprint)) (hnd : (m.map Prod.fst).Nodup) :
    diff m m = ⟨[], [], []⟩ := by
  have hlook : ∀ pr ∈ m, alist.lookup m pr.1 = some pr.2 := fun pr hpr =>
    (alist.lookup_eq_some_iff_mem hnd pr.1 pr.2).mpr hpr
  simp only [diff, DiffResult.mk.injEq]
  refine ⟨?_, ?_, ?_⟩
  · rw [List.map_eq_nil_iff, List.filter_eq_nil_iff]
    intro pr hpr
    rw [hlook pr hpr]
    simp
  · rw [List.map_eq_nil_iff, List.filter_eq_nil_iff]
    intro pr hpr
    rw [hlook pr hpr]
    simp
  · rw [List.map_eq_nil_iff, List.filter_eq_nil_iff]
    intro pr hpr
    rw [hlook pr hpr]
    simp

theorem sync_unchanged (fs : List (Path × String)) (st : FolderState)
    (hnd : (fs.map Prod.fst).Nodup) (hsnap : st.snapshot = snapshotOf fs)
    (hdone : st.initialSyncDone = true) :
    sync fs st = (st, 0) := by
  obtain ⟨snap, idx, done⟩ := st
  simp only at hsnap hdone
  subst hsnap
  subst hdone
  have hd : diff (snapshotOf fs) (snapshotOf fs) = ⟨[], [], []⟩ :=
    diff_self _ (by rw [snapshotOf_keys]; exact hnd)
  simp [sync, hd, applyChanged, embedCallsFor]

/-- C2: re-syncing a folder whose filesystem state matches the committed
snapshot of its last completed sync issues zero embedding calls and returns
the state byte-for-byte unchanged; consequently a redundant second `sync`
right after any sync is a no-op, i.e. `sync` is idempotent. -/
theorem sync_redundant_noop (fs : List (Path × String)) (st st0 : FolderState)
    (hnd : (fs.map Prod.fst).Nodup) (hsnap : st.snapshot = snapshotOf fs)
    (hdone : st.initialSyncDone = true) :
    sync fs st = (st, 0) ∧ sync fs (sync fs st0).1 = ((sync fs st0).1, 0) :=
  ⟨sync_unchanged fs st hnd hsnap hdone, sync_unchanged fs _ hnd rfl rfl⟩

/-- Witness for C2 at a concrete one-file folder: the hypotheses hold for the
state right after the initial sync, and re-syncing it is a no-op with zero
embedding calls. -/
theorem sync_redundant_noop_witness :
    (((([("a.txt", "hi")] : List (Path × String))).map Prod.fst).Nodup ∧
     (sync [("a.txt", "hi")] freshState).1.snapshot = snapshotOf [("a.txt", "hi")] ∧
     (sync [("a.txt", "hi")] freshState).1.initialSyncDone = true) ∧
    (sync [("a.txt", "hi")] (sync [("a.txt", "hi")] freshState).1 =
        ((sync [("a.txt", "hi")] freshState).1, 0) ∧
     sync [("a.txt", "hi")] (sync [("a.txt", "hi")] freshState).1 =
        ((sync [("a.txt", "hi")] freshState).1, 0)) :=
  ⟨⟨by decide, rfl, rfl⟩,
   sync_redundant_noop [("a.txt", "hi")] (sync [("a.txt", "hi")] freshState).1
     freshState (by decide) rfl rfl⟩

theorem lookup_snapshotOf (fs : List (Path × String)) (q : Path) :
    alist.lookup (snapshotOf fs) q = (alist.lookup fs q).map fingerprint := by
  induction fs with
  | nil => rfl
  | cons hd tl ih =>
    obtain ⟨r, content⟩ := hd
    show alist.lookup ((r, fingerprint content) :: snapshotOf tl) q = _
    rw [alist.lookup_cons, alist.lookup_cons]
    by_cases hr : r = q
    · simp [hr]
    · simp only [if_neg hr]
      exact ih

theorem lookup_filter_key {α : Type} (m : List (Path × α)) (p q : Path) :
    alist.lookup (m.filter (fun pr => pr.1 ≠ p)) q =
      if q = p then none else alist.lookup m q := by
  induction m with
  | nil => simp [alist.lookup]
  | cons hd tl ih =>
    obtain ⟨r, v⟩ := hd
    by_cases hr : r = p
    · subst hr
      rw [show ((r, v) :: tl).filter (fun pr => pr.1 ≠ r) =
            tl.filter (fun pr => pr.1 ≠ r) by simp]
      rw [ih, alist.lookup_cons]
      by_cases hq : q = r
      · simp [hq]
      · rw [if_neg hq, if_neg hq, if_neg (fun h => hq h.symm)]
    · rw [show ((r, v) :: tl).filter (fun pr => pr.1 ≠ p) =
            (r, v) :: tl.filter (fun pr => pr.1 ≠ p) by simp [hr]]
      rw [alist.lookup_cons, alist.lookup_cons, ih]
      by_cases hrq : r = q
      · subst hrq
        rw [if_pos rfl, if_pos rfl, if_neg (fun h => hr h)]
      · rw [if_neg hrq, if_neg hrq]

theorem alist.lookup_append {α : Type} (a b : List (Path × α)) (p : Path) :
    alist.lookup (a ++ b) p =
      match alist.lookup a p with
      | some v => some v
      | none => alist.lookup b p := by
  induction a with
  | nil => simp [alist.lookup]
  | cons hd tl ih =>
    obtain ⟨q, v⟩ := hd
    rw [List.cons_append, alist.lookup_cons, alist.lookup_cons]
    by_cases hq : q = p
    · simp [hq]
    · simp only [if_neg hq]
      exact ih

theorem filter_key_singleton {α : Type} (m : List (Path × α)) (p : Path)
    (hnd : (m.map Prod.fst).Nodup) (hp : p ∈ m.map Prod.fst) :
    (m.filter (fun pr => pr.1 = p)).map Prod.fst = [p] := by
  induction m with
  | nil => cases hp
  | cons hd tl ih =>
    obtain ⟨q, v⟩ := hd
    simp only [List.map_cons, List.nodup_cons] at hnd
    by_cases hq : q = p
    · subst hq
      rw [show ((q, v) :: tl).filter (fun pr => pr.1 = q) =
            (q, v) :: tl.filter (fun pr => pr.1 = q) by simp]
      have htl : tl.filter (fun pr => pr.1 = q) = [] := by
        rw [List.filter_eq_nil_iff]
        intro pr hpr
        simp only [decide_eq_true_eq]
        intro h
        exact hnd.1 (List.mem_map.mpr ⟨pr, hpr, h⟩)
      rw [htl]
      rfl
    · rw [show ((q, v) :: tl).filter (fun pr => pr.1 = p) =
            tl.filter (fun pr => pr.1 = p) by simp [hq]]
      apply ih hnd.2
      rcases List.mem_cons.mp hp with h | h
      · exact absurd h.symm hq
      · exact h

theorem diff_nil_left (new : List (Path × Fingerprint)) :
    diff [] new = ⟨new.map Prod.fst, [], []⟩ := by
  simp only [diff, DiffResult.mk.injEq]
  refine ⟨?_, ?_, ?_⟩
  · have h : new.filter (fun pr => (alist.lookup ([] : List (Path × Fingerprint)) pr.1).isNone) = new := by
      rw [List.filter_eq_self]
      intro pr _
      rfl
    rw [h]
  · rw [List.map_eq_nil_iff, List.filter_eq_nil_iff]
    intro pr _
    simp [alist.lookup]
  · rfl

theorem diff_delete (fs : List (Path × String)) (p : Path)
    (hnd : (fs.map Prod.fst).Nodup) (hp : p ∈ fs.map Prod.fst) :
    diff (snapshotOf fs) (snapshotOf (fs.filter (fun pc => pc.1 ≠ p))) = ⟨[], [], [p]⟩ := by
  have hndkeys : ((snapshotOf fs).map Prod.fst).Nodup := by
    rw [snapshotOf_keys]; exact hnd
  simp only [diff, DiffResult.mk.injEq]
  refine ⟨?_, ?_, ?_⟩
  · rw [List.map_eq_nil_iff, List.filter_eq_nil_iff]
    intro pr hpr
    have h1 : pr.1 ∈ (snapshotOf (fs.filter (fun pc => pc.1 ≠ p))).map Prod.fst :=
      List.mem_map.mpr ⟨pr, hpr, rfl⟩
    rw [snapshotOf_keys] at h1
    have h2 : pr.1 ∈ fs.map Prod.fst := by
      rcases List.mem_map.mp h1 with ⟨pc, hpc, h⟩
      exact List.mem_map.mpr ⟨pc, List.mem_of_mem_filter hpc, h⟩
    have h3 := (alist.lookup_isSome_iff fs pr.1).mpr h2
    rw [lookup_snapshotOf]
    cases hl : alist.lookup fs pr.1 with
    | none => rw [hl] at h3; cases h3
    | some c => simp
  · rw [List.map_eq_nil_iff, List.filter_eq_nil_iff]
    intro pr hpr
    simp only [snapshotOf, List.mem_map, List.mem_filter] at hpr
    obtain ⟨pc, ⟨hmemfs, _⟩, hpr⟩ := hpr
    subst hpr
    have hl : alist.lookup fs pc.1 = some pc.2 :=
      (alist.lookup_eq_some_iff_mem hnd pc.1 pc.2).mpr hmemfs
    simp [lookup_snapshotOf, hl]
  · have hcong : (snapshotOf fs).filter
        (fun pr => (alist.lookup (snapshotOf (fs.filter (fun pc => pc.1 ≠ p))) pr.1).isNone) =
        (snapshotOf fs).filter (fun pr => pr.1 = p) := by
      apply List.filter_congr
      intro pr hpr
      rw [lookup_snapshotOf, lookup_filter_key]
      by_cases hq : pr.1 = p
      · simp [hq]
      · simp only [if_neg hq]
        have h1 : pr.1 ∈ (snapshotOf fs).map Prod.fst := List.mem_map.mpr ⟨pr, hpr, rfl⟩
        rw [snapshotOf_keys] at h1
        have h3 := (alist.lookup_isSome_iff fs pr.1).mpr h1
        cases hl : alist.lookup fs pr.1 with
        | none => rw [hl] at h3; cases h3
        | some c => simp [hq]
    rw [hcong]
    exact filter_key_singleton _ p hndkeys (by rw [snapshotOf_keys]; exact hp)

theorem diff_recreate (fs' : List (Path × String)) (p : Path) (content : String)
    (hnd' : (fs'.map Prod.fst).Nodup) (hpnot : alist.lookup fs' p = none) :
    diff (snapshotOf fs') (snapshotOf (fs' ++ [(p, content)])) = ⟨[p], [], []⟩ := by
  have hsnapapp : snapshotOf (fs' ++ [(p, content)]) =
      snapshotOf fs' ++ [(p, fingerprint content)] := by
    simp [snapshotOf]
  have hndkeys' : ((snapshotOf fs').map Prod.fst).Nodup := by
    rw [snapshotOf_keys]; exact hnd'
  have hsome : ∀ pr ∈ snapshotOf fs', (alist.lookup (snapshotOf fs') pr.1).isSome = true :=
    fun pr hpr => (alist.lookup_isSome_iff _ _).mpr (List.mem_map.mpr ⟨pr, hpr, rfl⟩)
  simp only [diff, DiffResult.mk.injEq, hsnapapp]
  refine ⟨?_, ?_, ?_⟩
  · rw [List.filter_append]
    have h1 : (snapshotOf fs').filter
        (fun pr => (alist.lookup (snapshotOf fs') pr.1).isNone) = [] := by
      rw [List.filter_eq_nil_iff]
      intro pr hpr
      have h2 := hsome pr hpr
      cases hl : alist.lookup (snapshotOf fs') pr.1 with
      | none => rw [hl] at h2; cases h2
      | some c => simp [hl]
    have h2 : ([(p, fingerprint content)] : List (Path × Fingerprint)).filter
        (fun pr => (alist.lookup (snapshotOf fs') pr.1).isNone) = [(p, fingerprint content)] := by
      simp [List.filter_cons, lookup_snapshotOf, hpnot]
    rw [h1, h2]
    rfl
  · rw [List.filter_append, List.map_eq_nil_iff, List.append_eq_nil]
    constructor
    · rw [List.filter_eq_nil_iff]
      intro pr hpr
      simp only [snapshotOf, List.mem_map] at hpr
      obtain ⟨pc, hmem, hpr⟩ := hpr
      subst hpr
      have hl : alist.lookup fs' pc.1 = some pc.2 :=
        (alist.lookup_eq_some_iff_mem hnd' pc.1 pc.2).mpr hmem
      simp [lookup_snapshotOf, hl]
    · rw [List.filter_eq_nil_iff]
      intro pr hpr
      rcases List.mem_singleton.mp hpr with rfl
      simp [lookup_snapshotOf, hpnot]
  · rw [List.map_eq_nil_iff, List.filter_eq_nil_iff]
    intro pr hpr
    have h2 := hsome pr hpr
    rw [alist.lookup_append]
    cases hl : alist.lookup (snapshotOf fs') pr.1 with
    | none => rw [hl] at h2; cases h2
    | some c => simp

theorem filter_source_chunksFor_ne {p q : Path} (content : String) (h : q ≠ p) :
    (chunksFor q content).filter (fun c => c.source = p) = [] := by
  rw [List.filter_eq_nil_iff]
  intro c hc
  simp only [decide_eq_true_eq]
  rw [chunksFor_source hc]
  exact h

theorem filter_source_chunksFor_eq (p : Path) (content : String) :
    (chunksFor p content).filter (fun c => c.source = p) = chunksFor p content := by
  rw [List.filter_eq_self]
  intro c hc
  simp [chunksFor_source hc]

theorem filter_source_deleteBySource_self (idx : List Chunk) (p : Path) :
    (deleteBySource idx p).filter (fun c => c.source = p) = [] := by
  rw [List.filter_eq_nil_iff]
  intro c hc
  simp only [decide_eq_true_eq]
  exact (mem_deleteBySource.mp hc).2

theorem filter_source_deleteBySource_other {q p : Path} (hne : q ≠ p) (idx : List Chunk) :
    (deleteBySource idx q).filter (fun c => c.source = p) =
      idx.filter (fun c => c.source = p) := by
  unfold deleteBySource
  rw [List.filter_filter]
  apply List.filter_congr
  intro c _
  by_cases h : c.source = p
  · simp [h, Ne.symm hne]
  · simp [h]

theorem applyChanged_filter_source_notmem (fs : List (Path × String)) (p : Path) :
    ∀ (ps : List Path), p ∉ ps → ∀ idx,
      (applyChanged fs idx ps).filter (fun c => c.source = p) =
        idx.filter (fun c => c.source = p) := by
  intro ps
  induction ps with
  | nil => intro _ idx; rfl
  | cons q qs ih =>
    intro hnp idx
    have hq : q ≠ p := fun h => hnp (h ▸ List.mem_cons_self _ _)
    have hqs : p ∉ qs := fun h => hnp (List.mem_cons_of_mem _ h)
    rw [applyChanged_cons]
    cases hlk : alist.lookup fs q with
    | none => exact ih hqs idx
    | some content =>
      rw [ih hqs _]
      show (applyFile idx q content).filter (fun c => c.source = p) = _
      unfold applyFile
      rw [List.filter_append, filter_source_chunksFor_ne content hq, List.append_nil]
      exact filter_source_deleteBySource_other hq idx

theorem applyChanged_filter_source (fs : List (Path × String)) (p : Path) (content : String)
    (hc : alist.lookup fs p = some content) :
    ∀ (ps : List Path), ps.Nodup → p ∈ ps → ∀ idx,
      (applyChanged fs idx ps).filter (fun c => c.source = p) = chunksFor p content := by
  intro ps
  induction ps with
  | nil => intro _ h; cases h
  | cons q qs ih =>
    intro hnd hp idx
    obtain ⟨hqn, hndq⟩ := List.nodup_cons.mp hnd
    by_cases hqp : q = p
    · subst hqp
      rw [applyChanged_cons, hc]
      rw [applyChanged_filter_source_notmem fs q qs hqn _]
      show (applyFile idx q content).filter (fun c => c.source = q) = _
      unfold applyFile
      rw [List.filter_append, filter_source_deleteBySource_self, List.nil_append]
      exact filter_source_chunksFor_eq q content
    · have hpqs : p ∈ qs := by
        rcases List.mem_cons.mp hp with h | h
        · exact absurd h.symm hqp
        · exact h
      rw [applyChanged_cons]
      cases hlk : alist.lookup fs q with
      | none => exact ih hndq hpqs idx
      | some content' => exact ih hndq hpqs _

theorem sync_delete_index (fs : List (Path × String)) (st : FolderState) (p : Path)
    (hnd : (fs.map Prod.fst).Nodup) (hp : p ∈ fs.map Prod.fst)
    (hsnap : st.snapshot = snapshotOf fs) :
    (sync (fs.filter (fun pc => pc.1 ≠ p)) st).1.index =
      st.index.filter (fun c => c.source ≠ p) := by
  have h : (sync (fs.filter (fun pc => pc.1 ≠ p)) st).1.index =
      applyChanged (fs.filter (fun pc => pc.1 ≠ p))
        ((diff st.snapshot (snapshotOf (fs.filter (fun pc => pc.1 ≠ p)))).removed.foldl
          deleteBySource st.index)
        ((diff st.snapshot (snapshotOf (fs.filter (fun pc => pc.1 ≠ p)))).added ++
          (diff st.snapshot (snapshotOf (fs.filter (fun pc => pc.1 ≠ p)))).modified) := rfl
  rw [h, hsnap, diff_delete fs p hnd hp]
  rfl

theorem sync_recreate_filter (fs' : List (Path × String)) (st : FolderState)
    (p : Path) (content : String)
    (hnd' : (fs'.map Prod.fst).Nodup) (hpnone : alist.lookup fs' p = none)
    (hsnap : st.snapshot = snapshotOf fs') :
    (sync (fs' ++ [(p, content)]) st).1.index.filter (fun c => c.source = p) =
      chunksFor p content := by
  have hl : alist.lookup (fs' ++ [(p, content)]) p = some content := by
    rw [alist.lookup_append, hpnone]
    simp [alist.lookup]
  have h : (sync (fs' ++ [(p, content)]) st).1.index =
      applyChanged (fs' ++ [(p, content)])
        ((diff st.snapshot (snapshotOf (fs' ++ [(p, content)]))).removed.foldl
          deleteBySource st.index)
        ((diff st.snapshot (snapshotOf (fs' ++ [(p, content)]))).added ++
          (diff st.snapshot (snapshotOf (fs' ++ [(p, content)]))).modified) := rfl
  rw [h, hsnap, diff_recreate fs' p content hnd' hpnone]
  show (applyChanged (fs' ++ [(p, content)]) st.index ([p] ++ [])).filter
      (fun c => c.source = p) = chunksFor p content
  rw [List.append_nil, applyChanged_cons, hl]
  show (applyFile st.index p content).filter (fun c => c.source = p) = chunksFor p content
  unfold applyFile
  rw [List.filter_append, filter_source_deleteBySource_self, List.nil_append]
  exact filter_source_chunksFor_eq p content

theorem initial_sync_filter (fs : List (Path × String)) (p : Path) (content : String)
    (hnd : (fs.map Prod.fst).Nodup) (hp : alist.lookup fs p = some content) :
    (sync fs freshState).1.index.filter (fun c => c.source = p) = chunksFor p content := by
  have hpk : p ∈ fs.map Prod.fst :=
    (alist.lookup_isSome_iff fs p).mp (by rw [hp]; rfl)
  have h : (sync fs freshState).1.index =
      applyChanged fs
        ((diff [] (snapshotOf fs)).removed.foldl deleteBySource [])
        ((diff [] (snapshotOf fs)).added ++ (diff [] (snapshotOf fs)).modified) := rfl
  rw [h, diff_nil_left]
  show (applyChanged fs [] ((snapshotOf fs).map Prod.fst ++ [])).filter
      (fun c => c.source = p) = chunksFor p content
  rw [List.append_nil, snapshotOf_keys]
  exact applyChanged_filter_source fs p content hp (fs.map Prod.fst) hnd hpk []

/-- C5: starting from the initial sync of a folder, deleting file `p` and
syncing removes exactly the chunks whose source is `p` and no chunks of any
other file (the index equals the previous index with precisely the `p`-chunks
filtered out); and deleting then recreating the byte-identical file
reproduces exactly the same chunk list — same texts, ordinals, hashes and
vectors — as before, both being the content-determined `chunksFor p content`
(determinism of chunking and embedding). -/
theorem delete_recreate_chunks (fs : List (Path × String)) (p : Path) (content : String)
    (hnd : (fs.map Prod.fst).Nodup) (hp : alist.lookup fs p = some content) :
    ((sync (fs.filter (fun pc => pc.1 ≠ p)) (sync fs freshState).1).1.index =
       (sync fs freshState).1.index.filter (fun c => c.source ≠ p)) ∧
    ((sync (fs.filter (fun pc => pc.1 ≠ p) ++ [(p, content)])
         (sync (fs.filter (fun pc => pc.1 ≠ p)) (sync fs freshState).1).1).1.index.filter
        (fun c => c.source = p) =
       (sync fs freshState).1.index.filter (fun c => c.source = p)) ∧
    ((sync fs freshState).1.index.filter (fun c => c.source = p) =
       chunksFor p content) := by
  have hpk : p ∈ fs.map Prod.fst :=
    (alist.lookup_isSome_iff fs p).mp (by rw [hp]; rfl)
  have hnd' : ((fs.filter (fun pc => pc.1 ≠ p)).map Prod.fst).Nodup :=
    ((List.filter_sublist _).map _).nodup hnd
  have hlk' : alist.lookup (fs.filter (fun pc => pc.1 ≠ p)) p = none := by
    rw [lookup_filter_key]
    simp
  have h3 := initial_sync_filter fs p content hnd hp
  refine ⟨?_, ?_, h3⟩
  · exact sync_delete_index fs _ p hnd hpk rfl
  · rw [h3]
    exact sync_recreate_filter (fs.filter (fun pc => pc.1 ≠ p)) _ p content hnd' hlk' rfl

/-- Witness for C5 at a concrete two-file folder: deleting `a` then
recreating it byte-identically reproduces its chunk list. -/
theorem delete_recreate_chunks_witness :
    ((sync ([("a", "x"), ("b", "y")].filter (fun pc => pc.1 ≠ "a"))
        (sync [("a", "x"), ("b", "y")] freshState).1).1.index =
       (sync [("a", "x"), ("b", "y")] freshState).1.index.filter
         (fun c => c.source ≠ "a")) ∧
    ((sync ([("a", "x"), ("b", "y")].filter (fun pc => pc.1 ≠ "a") ++ [("a", "x")])
         (sync ([("a", "x"), ("b", "y")].filter (fun pc => pc.1 ≠ "a"))
           (sync [("a", "x"), ("b", "y")] freshState).1).1).1.index.filter
        (fun c => c.source = "a") =
       (sync [("a", "x"), ("b", "y")] freshState).1.index.filter
         (fun c => c.source = "a")) ∧
    ((sync [("a", "x"), ("b", "y")] freshState).1.index.filter
        (fun c => c.source = "a") = chunksFor "a" "x") :=
  delete_recreate_chunks [("a", "x"), ("b", "y")] "a" "x" (by decide) (by decide)

/-- Prisma `WatchedFolder` row (src/backend/prisma/schema.prisma, model
`WatchedFolder`): `llmProviderId` is declared `Int?`, i.e. nullable, hence
`Option Int` here; timestamps are opaque strings for this development. -/
structure WatchedFolderRow where
  id : Nat
  name : String
  path : String
  vectorDbFilename : String
  vectorDbLocation : String
  folderHash : String
  llmProviderId : Option Int
  createdAt : String
  updatedAt : String
deriving DecidableEq, Repr

/-- Prisma `File` row (src/backend/prisma/schema.prisma, model `File`), with
`@@unique([watchedFolderId, relativePath])` and `onDelete: Cascade` on its
folder relation. -/
structure FileRow where
  id : Nat
  name : String
  relativePath : String
  fileHash : String
  watchedFolderId : Nat
  createdAt : String
  updatedAt : String
deriving DecidableEq, Repr

/-- Frontend `ApiFileResponse` (src/frontend/src/types.ts). -/
structure ApiFileResponse where
  id : Nat
  name : String
  relativePath : String
  fileHash : String
  watchedFolderId : Nat
  createdAt : String
  updatedAt : String
deriving DecidableEq, Repr

/-- Frontend `ApiWatchedFolderResponse` (src/frontend/src/types.ts):
`llmProviderId` is declared `number`, i.e. non-nullable. -/
structure ApiWatchedFolderResponse where
  id : Nat
  name : String
  llmProviderId : Int
  path : String
  vectorDbFilename : String
  vectorDbLocation : String
  folderHash : String
  files : List ApiFileResponse
  createdAt : String
  updatedAt : String
deriving DecidableEq, Repr

/-- Persisted system state owned by the core: folder and file rows of the
database together with each folder's snapshot, vector index storage and any
in-flight sync, keyed by folder id. -/
structure SystemState where
  folders : List WatchedFolderRow
  files : List FileRow
  snapshots : List (Nat × List (Path × Fingerprint))
  indexes : List (Nat × List Chunk)
  inFlightSyncs : List Nat
deriving Repr

/-- Modelled from the spec (§3 "Destroyed ⇒ its snapshot and vector index are
deleted", §5 folder deletion cancels the in-flight sync first) together with
the schema's `onDelete: Cascade` on `File.watchedFolder`: deleting a watched
folder removes its row, cascades to its `File` rows, drops its snapshot and
index storage, and cancels its in-flight sync.  The backend deletion handler
is not in the repository snapshot. -/
def deleteFolder (s : SystemState) (fid : Nat) : SystemState where
  folders := s.folders.filter (fun r => r.id ≠ fid)
  files := s.files.filter (fun f => f.watchedFolderId ≠ fid)
  snapshots := s.snapshots.filter (fun pr => pr.1 ≠ fid)
  indexes := s.indexes.filter (fun pr => pr.1 ≠ fid)
  inFlightSyncs := s.inFlightSyncs.filter (fun g => g ≠ fid)

/-- C6: after `deleteFolder`, no persisted artifact of the folder survives:
no folder row with its id, no `File` row belonging to it (the schema's
cascade), no snapshot, no vector index storage, and no in-flight sync for
it (cancellation). -/
theorem deleteFolder_removes_all (s : SystemState) (fid : Nat) :
    ((deleteFolder s fid).folders.all (fun r => r.id ≠ fid) = true) ∧
    ((deleteFolder s fid).files.all (fun f => f.watchedFolderId ≠ fid) = true) ∧
    ((deleteFolder s fid).snapshots.all (fun pr => pr.1 ≠ fid) = true) ∧
    ((deleteFolder s fid).indexes.all (fun pr => pr.1 ≠ fid) = true) ∧
    ((deleteFolder s fid).inFlightSyncs.all (fun g => g ≠ fid) = true) := by
  refine ⟨?_, ?_, ?_, ?_, ?_⟩ <;>
    · rw [List.all_eq_true]
      intro x hx
      simp only [deleteFolder] at hx
      exact (List.mem_filter.mp hx).2

/-- The `@@unique([watchedFolderId, relativePath])` constraint of the Prisma
`File` model: no two rows share both the folder id and the relative path. -/
def filesUnique (files : List FileRow) : Prop :=
  files.Pairwise (fun a b =>
    a.watchedFolderId ≠ b.watchedFolderId ∨ a.relativePath ≠ b.relativePath)

/-- Modelled from the spec and the schema's unique constraint: creating a
FileRecord fails (Prisma raises a unique-constraint violation) when a row
with the same `(watchedFolderId, relativePath)` already exists; the backend
writer is not in the repository snapshot. -/
def createFile (files : List FileRow) (r : FileRow) : Option (List FileRow) :=
  if files.any (fun f => f.watchedFolderId = r.watchedFolderId ∧
      f.relativePath = r.relativePath)
  then none
  else some (r :: files)

/-- Modelled from the spec (§3): a FileRecord is "updated when fingerprint
changes" — update the `fileHash` of the record at `(fid, rel)` in place. -/
def updateFileHash (files : List FileRow) (fid : Nat) (rel h : String) : List FileRow :=
  files.map (fun f =>
    if f.watchedFolderId = fid ∧ f.relativePath = rel then { f with fileHash := h } else f)

/-- Modelled from the spec (§3): a FileRecord is "deleted when the file
disappears" — remove the record at `(fid, rel)`. -/
def deleteFile (files : List FileRow) (fid : Nat) (rel : String) : List FileRow :=
  files.filter (fun f => ¬ (f.watchedFolderId = fid ∧ f.relativePath = rel))

/-- C7: relative-path uniqueness within a folder is an invariant of the
`File` table — a successful create (which Prisma's unique constraint guards),
a fingerprint update, and a delete each preserve it. -/
theorem fileRecord_unique_preserved (files : List FileRow) (r : FileRow)
    (fid : Nat) (rel h : String) (hu : filesUnique files) :
    (∀ out, createFile files r = some out → filesUnique out) ∧
    filesUnique (updateFileHash files fid rel h) ∧
    filesUnique (deleteFile files fid rel) := by
  refine ⟨?_, ?_, ?_⟩
  · intro out hout
    unfold createFile at hout
    by_cases hany : files.any (fun f => f.watchedFolderId = r.watchedFolderId ∧
        f.relativePath = r.relativePath) = true
    · rw [if_pos hany] at hout
      cases hout
    · rw [if_neg hany] at hout
      injection hout with hout
      subst hout
      rw [filesUnique, List.pairwise_cons]
      refine ⟨?_, hu⟩
      intro b hb
      by_cases h1 : r.watchedFolderId = b.watchedFolderId
      · by_cases h2 : r.relativePath = b.relativePath
        · exfalso
          apply hany
          rw [List.any_eq_true]
          exact ⟨b, hb, by simp [h1.symm, h2.symm]⟩
        · exact Or.inr h2
      · exact Or.inl h1
  · unfold updateFileHash filesUnique
    rw [List.pairwise_map]
    apply hu.imp
    intro a b hab
    have hg : ∀ f : FileRow,
        ((if f.watchedFolderId = fid ∧ f.relativePath = rel then
            { f with fileHash := h } else f).watchedFolderId = f.watchedFolderId ∧
         (if f.watchedFolderId = fid ∧ f.relativePath = rel then
            { f with fileHash := h } else f).relativePath = f.relativePath) := by
      intro f
      by_cases hf : f.watchedFolderId = fid ∧ f.relativePath = rel
      · rw [if_pos hf]
        exact ⟨rfl, rfl⟩
      · rw [if_neg hf]
        exact ⟨rfl, rfl⟩
    rw [(hg a).1, (hg a).2, (hg b).1, (hg b).2]
    exact hab
  · exact hu.sublist (List.filter_sublist _)

/-- Witness for C7 at a concrete two-row table: uniqueness is preserved by a
create of a new path, a hash update and a delete. -/
theorem fileRecord_unique_preserved_witness :
    filesUnique [⟨1, "a", "docs/a", "h1", 10, "", ""⟩, ⟨2, "b", "docs/b", "h2", 10, "", ""⟩] ∧
    (∀ out, createFile
        [⟨1, "a", "docs/a", "h1", 10, "", ""⟩, ⟨2, "b", "docs/b", "h2", 10, "", ""⟩]
        ⟨3, "c", "docs/c", "h3", 10, "", ""⟩ = some out → filesUnique out) ∧
    filesUnique (updateFileHash
      [⟨1, "a", "docs/a", "h1", 10, "", ""⟩, ⟨2, "b", "docs/b", "h2", 10, "", ""⟩]
      10 "docs/a" "h9") ∧
    filesUnique (deleteFile
      [⟨1, "a", "docs/a", "h1", 10, "", ""⟩, ⟨2, "b", "docs/b", "h2", 10, "", ""⟩]
      10 "docs/a") := by
  have hu : filesUnique
      [⟨1, "a", "docs/a", "h1", 10, "", ""⟩, ⟨2, "b", "docs/b", "h2", 10, "", ""⟩] := by
    unfold filesUnique
    decide
  have := fileRecord_unique_preserved
    [⟨1, "a", "docs/a", "h1", 10, "", ""⟩, ⟨2, "b", "docs/b", "h2", 10, "", ""⟩]
    ⟨3, "c", "docs/c", "h3", 10, "", ""⟩ 10 "docs/a" "h9" hu
  exact ⟨hu, this.1, this.2.1, this.2.2⟩

/-- JavaScript `String.prototype.trim`: strip leading and trailing
whitespace (structural transliteration over the character list). -/
def jsTrim (s : String) : String :=
  String.mk (((s.data.dropWhile Char.isWhitespace).reverse.dropWhile
    Char.isWhitespace).reverse)

/-- JavaScript `String.prototype.toLowerCase` (ASCII lowering, as the folder
names handled here). -/
def jsToLower (s : String) : String :=
  String.mk (s.data.map Char.toLower)

/-- Split a character list at separator characters, keeping empty segments,
as JavaScript `String.prototype.split` with a character-class regex does. -/
def splitChars (p : Char → Bool) : List Char → List String
  | [] => [""]
  | c :: rest =>
    let r := splitChars p rest
    if p c then "" :: r
    else
      match r with
      | [] => [String.mk [c]]
      | hd :: tl => String.mk (c :: hd.data) :: tl

/-- JavaScript falsiness of an optional string (`!x` in
`WatchedFolderFormDialog.handleSubmit`): `undefined` and `""` are falsy. -/
def jsFalsyStr (o : Option String) : Bool :=
  match o with
  | none => true
  | some s => s = ""

/-- JavaScript `parseInt` as applied by the form to a provider-id string
(`provider.id.toString()`), modelled as integer parsing with 0 for
unparsable input. -/
def parseIntJs (s : String) : Int :=
  (s.toInt?).getD 0

/-- `path.split(/\/|\\/)` of the form dialog: split on forward and backward
slashes, keeping empty segments. -/
def splitPath (s : String) : List String :=
  splitChars (fun c => c = '/' ∨ c = '\\') s.data

/-- `.pop() || "default_folder"`: the last segment of the split path, falling
back when it is missing or empty (empty strings are falsy). -/
def lastSegmentOrDefault (path : String) : String :=
  match (splitPath path).getLast? with
  | some s => if s = "" then "default_folder" else s
  | none => "default_folder"

/-- `.replace(/\s+/g, "_")`: every maximal run of whitespace becomes a single
underscore.  The fold carries a flag recording whether the previous character
was whitespace. -/
def collapseWhitespace (s : String) : String :=
  String.mk (s.data.foldl
    (fun acc c =>
      if c.isWhitespace then
        (true, if acc.1 then acc.2 else acc.2 ++ ['_'])
      else
        (false, acc.2 ++ [c]))
    ((false : Bool), ([] : List Char))).2

/-- The auto-generated Vector DB filename of
`WatchedFolderFormDialog.handleSubmit`:
`` `${(path.split(/\/|\\/).pop() || "default_folder").toLowerCase().replace(/\s+/g, "_")}_${Date.now()}_vectors` ``
with `Date.now()` passed in as `now`. -/
def autoVectorDbFilename (path : String) (now : Nat) : String :=
  collapseWhitespace (jsToLower (lastSegmentOrDefault path)) ++ "_" ++ toString now ++ "_vectors"

/-- Form state of `WatchedFolderFormDialog` in create mode (no
`initialData`). -/
structure FolderFormState where
  name : String
  path : String
  selectedLlmProviderId : Option String
  vectorDbFilename : String
  vectorDbLocation : String
deriving DecidableEq, Repr

/-- The create payload built by `WatchedFolderFormDialog.handleSubmit`:
`llmProviderId` is a mandatory integer field. -/
structure FolderCreatePayload where
  name : String
  path : String
  llmProviderId : Int
  vectorDbFilename : String
  vectorDbLocation : String
deriving DecidableEq, Repr

/-- Outcome of a create-mode form submission: a validation rejection with its
error message, or a payload handed to `onSubmit`. -/
inductive FolderSubmitOutcome
  | rejected (message : String)
  | submit (payload : FolderCreatePayload)
deriving DecidableEq, Repr

/-- `WatchedFolderFormDialog.handleSubmit` in create mode: the validation
guards in source order, then the payload with the trimmed fields, the parsed
provider id, and the final Vector DB filename (`vectorDbFilename.trim() ||`
the auto-generated name). -/
def folderFormHandleSubmit (st : FolderFormState) (now : Nat) : FolderSubmitOutcome :=
  if jsTrim st.name = "" then .rejected "Folder display name is required"
  else if jsTrim st.path = "" then .rejected "Folder path is required"
  else if jsFalsyStr st.selectedLlmProviderId then
    .rejected "An LLM Provider must be selected for embeddings"
  else if jsTrim st.vectorDbLocation = "" then
    .rejected "Vector DB Storage Location is required"
  else
    .submit
      { name := jsTrim st.name
        path := jsTrim st.path
        llmProviderId := parseIntJs (st.selectedLlmProviderId.getD "")
        vectorDbFilename :=
          if jsTrim st.vectorDbFilename = "" then autoVectorDbFilename st.path now
          else jsTrim st.vectorDbFilename
        vectorDbLocation := jsTrim st.vectorDbLocation }

/-- Whether a submission outcome carries a payload. -/
def FolderSubmitOutcome.isSubmit : FolderSubmitOutcome → Bool
  | .submit _ => true
  | .rejected _ => false

/-- C8 counterexample: the claim that a watched folder cannot exist without a
provider binding fails at the persistence schema — `llmProviderId` is
declared `Int?`, so a `WatchedFolder` row with no provider binding is
representable; here is one. -/
theorem watchedFolder_nullable_provider_cex :
    ¬ (∀ r : WatchedFolderRow, r.llmProviderId.isSome = true) := fun h =>
  absurd (h ⟨1, "f", "/f", "v", "./d", "", none, "", ""⟩) (by decide)

/-- C8 (amended): the configuration surface enforces the binding — when no
provider is selected (`undefined` or empty id string) the creation form
rejects the submission, and any submitted payload carries the integer id
parsed from a selected, non-empty provider id (the API response type
likewise declares a non-null provider id) — but the schema itself allows a
folder row without a binding. -/
theorem folder_provider_binding (st : FolderFormState) (now : Nat) :
    (jsFalsyStr st.selectedLlmProviderId = true →
      (folderFormHandleSubmit st now).isSubmit = false) ∧
    (∀ pl, folderFormHandleSubmit st now = .submit pl →
      ∃ s, st.selectedLlmProviderId = some s ∧ s ≠ "" ∧
        pl.llmProviderId = parseIntJs s) := by
  constructor
  · intro h
    unfold folderFormHandleSubmit
    by_cases h1 : jsTrim st.name = ""
    · simp [h1, FolderSubmitOutcome.isSubmit]
    · by_cases h2 : jsTrim st.path = ""
      · simp [h1, h2, FolderSubmitOutcome.isSubmit]
      · simp [h1, h2, h, FolderSubmitOutcome.isSubmit]
  · intro pl hpl
    unfold folderFormHandleSubmit at hpl
    by_cases h1 : jsTrim st.name = ""
    · rw [if_pos h1] at hpl; cases hpl
    · rw [if_neg h1] at hpl
      by_cases h2 : jsTrim st.path = ""
      · rw [if_pos h2] at hpl; cases hpl
      · rw [if_neg h2] at hpl
        by_cases h3 : jsFalsyStr st.selectedLlmProviderId = true
        · rw [if_pos (by simpa using h3)] at hpl; cases hpl
        · rw [if_neg (by simpa using h3)] at hpl
          by_cases h4 : jsTrim st.vectorDbLocation = ""
          · rw [if_pos h4] at hpl; cases hpl
          · rw [if_neg h4] at hpl
            injection hpl with hpl
            cases hs : st.selectedLlmProviderId with
            | none =>
              exfalso
              apply h3
              rw [hs]
              rfl
            | some s =>
              refine ⟨s, rfl, ?_, ?_⟩
              · intro hempty
                apply h3
                rw [hs, hempty]
                rfl
              · rw [← hpl, hs]
                rfl

/-- Witness for C8's amended claim: a concrete create-mode state with no
provider selected is rejected, not submitted. -/
theorem folder_provider_binding_witness :
    (folderFormHandleSubmit ⟨"Docs", "/home/docs", none, "", "./data"⟩ 5).isSubmit = false :=
  (folder_provider_binding ⟨"Docs", "/home/docs", none, "", "./data"⟩ 5).1 rfl

/-- C10: when the Vector DB Filename field is blank (trims to empty) and the
other guards pass, the submitted payload's `vectorDbFilename` is exactly the
auto-generated name — last path segment (or `"default_folder"` when the path
has no last segment), lowercased, whitespace runs replaced by underscores,
then an underscore, the timestamp, and the suffix `"_vectors"` — and it is
never the empty string. -/
theorem auto_vectorDbFilename_spec (st : FolderFormState) (now : Nat)
    (hname : jsTrim st.name ≠ "") (hpath : jsTrim st.path ≠ "")
    (hprov : jsFalsyStr st.selectedLlmProviderId = false)
    (hloc : jsTrim st.vectorDbLocation ≠ "")
    (hblank : jsTrim st.vectorDbFilename = "") :
    ∃ pl, folderFormHandleSubmit st now = .submit pl ∧
      pl.vectorDbFilename = autoVectorDbFilename st.path now ∧
      pl.vectorDbFilename ≠ "" := by
  have hsub : folderFormHandleSubmit st now = .submit
      { name := jsTrim st.name
        path := jsTrim st.path
        llmProviderId := parseIntJs (st.selectedLlmProviderId.getD "")
        vectorDbFilename := autoVectorDbFilename st.path now
        vectorDbLocation := jsTrim st.vectorDbLocation } := by
    unfold folderFormHandleSubmit
    rw [if_neg hname, if_neg hpath, if_neg (by simp [hprov]), if_neg hloc, if_pos hblank]
  refine ⟨_, hsub, rfl, ?_⟩
  unfold autoVectorDbFilename
  intro hcontra
  have hlen := congrArg String.length hcontra
  rw [String.length_append] at hlen
  simp at hlen
  exact absurd hlen.2 (by decide)

/-- Witness for C10 at a concrete form state with a blank filename field:
the payload's filename is the auto-generated, non-empty name. -/
theorem auto_vectorDbFilename_spec_witness :
    ∃ pl, folderFormHandleSubmit ⟨"Docs", "/home/My Docs", some "3", "", "./data"⟩ 42 =
        .submit pl ∧
      pl.vectorDbFilename = autoVectorDbFilename "/home/My Docs" 42 ∧
      pl.vectorDbFilename ≠ "" :=
  auto_vectorDbFilename_spec ⟨"Docs", "/home/My Docs", some "3", "", "./data"⟩ 42
    (by decide) (by decide) (by decide) (by decide) (by decide)

/-- A displayed chat message (frontend `Message` type): optimistic messages
have no id yet. -/
structure ChatMessage where
  id : Option Nat
  role : String
  content : String
  createdAt : Option String
deriving DecidableEq, Repr

/-- The JSON body of the send-message POST issued by
`ChatInterface.handleSendMessage`. -/
structure SendMessageBody where
  chat_id : Option Int
  text : String
  llm_provider_id : Int
  watched_folder_id : Int
deriving DecidableEq, Repr

/-- An HTTP request issued by the chat interface. -/
structure HttpRequest where
  method : String
  url : String
  body : SendMessageBody
deriving DecidableEq, Repr

/-- JavaScript falsiness of an optional number (`!x` in
`ChatInterface.handleSendMessage`): `null` and `0` are falsy. -/
def jsFalsyNum (o : Option Int) : Bool :=
  match o with
  | none => true
  | some n => n = 0

/-- Chat-interface state relevant to `handleSendMessage`. -/
structure ChatUiState where
  currentLLMProviderId : Option Int
  currentWatchedFolderId : Option Int
  activeChatId : Option Int
  input : String
  messages : List ChatMessage
  isBotTyping : Bool
deriving DecidableEq, Repr

/-- `ChatInterface.handleSendMessage` up to issuing the fetch: the three
guards in source order (missing provider, missing folder, input blank after
trimming), then the typing flag, the optimistic user message, the cleared
input, and the single POST to `/chats/send-message`.  Returns the updated
state and the list of HTTP requests issued. -/
def handleSendMessage (st : ChatUiState) : ChatUiState × List HttpRequest :=
  if jsFalsyNum st.currentLLMProviderId then (st, [])
  else if jsFalsyNum st.currentWatchedFolderId then (st, [])
  else if jsTrim st.input = "" then (st, [])
  else
    ({ st with
        isBotTyping := true
        messages := st.messages ++
          [{ id := none, role := "user", content := st.input, createdAt := none }]
        input := "" },
     [{ method := "POST"
        url := "/api/v1/chats/send-message"
        body := { chat_id := st.activeChatId
                  text := st.input
                  llm_provider_id := st.currentLLMProviderId.getD 0
                  watched_folder_id := st.currentWatchedFolderId.getD 0 } }])

/-- C9: whenever no LLM provider is selected, or no watched folder is
selected, or the input is empty after trimming, `handleSendMessage` issues no
HTTP request and leaves the displayed message list unchanged (in fact it
leaves the whole state unchanged). -/
theorem handleSendMessage_guards (st : ChatUiState)
    (h : st.currentLLMProviderId = none ∨ st.currentWatchedFolderId = none ∨
      jsTrim st.input = "") :
    (handleSendMessage st).2 = [] ∧
    (handleSendMessage st).1.messages = st.messages := by
  have hdone : handleSendMessage st = (st, []) := by
    unfold handleSendMessage
    rcases h with h | h | h
    · rw [if_pos (by rw [h]; rfl)]
    · by_cases hp : jsFalsyNum st.currentLLMProviderId = true
      · rw [if_pos hp]
      · rw [if_neg (by simpa using hp), if_pos (by rw [h]; rfl)]
    · by_cases hp : jsFalsyNum st.currentLLMProviderId = true
      · rw [if_pos hp]
      · rw [if_neg (by simpa using hp)]
        by_cases hf : jsFalsyNum st.currentWatchedFolderId = true
        · rw [if_pos hf]
        · rw [if_neg (by simpa using hf), if_pos h]
  rw [hdone]
  exact ⟨rfl, rfl⟩

/-- Witness for C9: with no provider selected (but a folder selected and
non-blank input), no request is issued and the message list is untouched. -/
theorem handleSendMessage_guards_witness :
    (handleSendMessage ⟨none, some 2, some 7, "hello", [], false⟩).2 = [] ∧
    (handleSendMessage ⟨none, some 2, some 7, "hello", [], false⟩).1.messages =
      (⟨none, some 2, some 7, "hello", [], false⟩ : ChatUiState).messages :=
  handleSendMessage_guards ⟨none, some 2, some 7, "hello", [], false⟩ (Or.inl rfl)

end LocalRAG
